import Mathlib

/-
Verification of the TuffieLang front end (tokenizer in src/lexer.ts and the
recursive-descent parser described by the specification).

The tokenizer is embedded shallowly: the mutable character buffer of the
source becomes an explicit `List Char` threaded through each handler, and
every handler of the dispatch table becomes a pair of a `satisfies`
predicate and a parse function returning the produced token (if any)
together with the remaining input.  Fallible operations return
`Except String`, mirroring thrown `Error` values.
-/

namespace Tuffie

/-! ## Character classes (the regular expressions of lexer.ts) -/

/-- Embeds the test of regex [a-zA-Z] on a single character (lexer.ts isAlpha). -/
def isAlpha (c : Char) : Bool :=
  decide (65 ≤ c.toNat ∧ c.toNat ≤ 90) || decide (97 ≤ c.toNat ∧ c.toNat ≤ 122)

/-- Embeds the test of regex \d on a single character (lexer.ts isDigit). -/
def isDigit (c : Char) : Bool :=
  decide (48 ≤ c.toNat ∧ c.toNat ≤ 57)

/-- Embeds the test of regex \s on a single character (lexer.ts isWhitespace);
the ASCII whitespace characters space, tab, newline, carriage return,
vertical tab and form feed. -/
def isWhitespace (c : Char) : Bool :=
  decide (c.toNat = 32) || decide (c.toNat = 9) || decide (c.toNat = 10) ||
  decide (c.toNat = 13) || decide (c.toNat = 11) || decide (c.toNat = 12)

/-- lexer.ts isUnderscore. -/
def isUnderscore (c : Char) : Bool :=
  decide (c.toNat = 95)

/-- lexer.ts isSymbol: an alphabetic character or an underscore. -/
def isSymbol (c : Char) : Bool :=
  isAlpha c || isUnderscore c

/-- The double quote character. -/
def dquoteChar : Char := Char.ofNat 34

/-- The single quote character. -/
def squoteChar : Char := Char.ofNat 39

/-! ## Tokens -/

/-- The TokenType enum of lexer.ts. -/
inductive TokenType where
  | EOF
  | Symbol
  | Eq
  | Deq
  | Teq
  | Number
  | Add
  | Minus
  | DMinus
  | Div
  | Mult
  | Exp
  | Const
  | Let
  | Underscore
  | Semicolon
  | DblQuote
  | SnglQuote
  | String
  | Function
  | LeftParen
  | RightParen
  | LeftBrace
  | RightBrace
deriving DecidableEq, Repr

/-- The Token interface of lexer.ts: an optional literal value and a type. -/
structure Token where
  value : Option String := none
  type : TokenType
deriving DecidableEq, Repr

/-- Lexer.generateToken: a falsy value (undefined or the empty string) is
omitted from the constructed token. -/
def generateToken (value : Option String) (type : TokenType) : Token :=
  if value = none ∨ value = some "" then { type } else { value, type }

/-! ## The single-character fast path of Lexer.evalToken -/

/-- The characters of the switch statement at the top of Lexer.evalToken. -/
def isFastPath (c : Char) : Bool :=
  decide (c.toNat = 59) || decide (c.toNat = 42) || decide (c.toNat = 43) ||
  decide (c.toNat = 47) || decide (c.toNat = 95) || decide (c.toNat = 40) ||
  decide (c.toNat = 41) || decide (c.toNat = 123) || decide (c.toNat = 125)

/-- The restriction of TokenTypeReverseLookup to the fast-path characters.
Only ever applied under the isFastPath guard; the final branch is the
right-brace entry. -/
def fastPathLookup (c : Char) : TokenType :=
  if c.toNat = 59 then .Semicolon
  else if c.toNat = 42 then .Mult
  else if c.toNat = 43 then .Add
  else if c.toNat = 47 then .Div
  else if c.toNat = 95 then .Underscore
  else if c.toNat = 40 then .LeftParen
  else if c.toNat = 41 then .RightParen
  else if c.toNat = 123 then .LeftBrace
  else .RightBrace

/-- Result type shared by every handler: either a thrown error, or an
optional token together with the remaining input. -/
abbrev LexResult := Except String (Option Token × List Char)

/-- The fast-path branch of Lexer.evalToken: shift one character and emit the
corresponding structural token. -/
def fastPathParse : List Char → LexResult
  | [] => .ok (none, [])
  | c :: rest =>
    .ok (some (generateToken (some (String.mk [c])) (fastPathLookup c)), rest)

/-! ## Handler strategies (satisfies / parse pairs from lexer.ts) -/

/-- QuoteHandler.satisfies: the current character is a double or single quote. -/
def quoteSatisfies : List Char → Bool
  | c :: _ => c == dquoteChar || c == squoteChar
  | [] => false

/-- The error message built by QuoteHandler when the end quote is missing:
it interpolates the last captured character (undefined when nothing was
captured) and the captured text without its last character. -/
def quoteErrMsg (quote : Char) (captured : List Char) : String :=
  "missing matching end quote of type: \"" ++ String.mk [quote] ++
  "\", but got \"" ++
  (match captured.getLast? with
   | some c => String.mk [c]
   | none => "undefined") ++
  "\" Maybe you forgot to close the value: \"" ++
  String.mk captured.dropLast ++ "\""

/-- QuoteHandler.parse: consume the opening quote, capture characters until
the matching quote, then require the end quote. -/
def quoteParse : List Char → LexResult
  | [] => .error "unable to retrieve invalid character"
  | quote :: rest =>
    let captured := rest.takeWhile (fun c => c != quote)
    match rest.dropWhile (fun c => c != quote) with
    | endQuote :: rest2 =>
      if endQuote = quote then
        .ok (some (generateToken (some (String.mk captured)) TokenType.String), rest2)
      else .error (quoteErrMsg quote captured)
    | [] => .error (quoteErrMsg quote captured)

/-- SpaceHandler.satisfies. -/
def spaceSatisfies : List Char → Bool
  | c :: _ => isWhitespace c
  | [] => false

/-- SpaceHandler.parse: discard the maximal run of whitespace, producing no
token. -/
def spaceParse (input : List Char) : LexResult :=
  .ok (none, input.dropWhile isWhitespace)

/-- EqualHandler.satisfies. -/
def equalSatisfies : List Char → Bool
  | c :: _ => c == '='
  | [] => false

/-- EqualHandler.parse: count the equals characters among the first three
characters (a filter of the slice, not a run of consecutive characters),
splice that many characters off, and map the spliced lexeme to a token; a
lexeme other than the three equality lexemes yields no token. -/
def equalParse (input : List Char) : LexResult :=
  let equalCount := ((input.take 3).filter (fun c => c == '=')).length
  let lexeme :=
    if 0 < equalCount ∧ equalCount ≤ 3 then String.mk (input.take equalCount) else ""
  let rest :=
    if 0 < equalCount ∧ equalCount ≤ 3 then input.drop equalCount else input
  if lexeme = "=" then .ok (some (generateToken (some lexeme) TokenType.Eq), rest)
  else if lexeme = "==" then .ok (some (generateToken (some lexeme) TokenType.Deq), rest)
  else if lexeme = "===" then .ok (some (generateToken (some lexeme) TokenType.Teq), rest)
  else .ok (none, rest)

/-- MinusHandler.satisfies. -/
def minusSatisfies : List Char → Bool
  | c :: _ => c == '-'
  | [] => false

/-- MinusHandler.parse: count the minus characters among the first two
characters, splice that many off, and map the lexeme; any other lexeme is a
thrown error. -/
def minusParse (input : List Char) : LexResult :=
  let minusCount := ((input.take 2).filter (fun c => c == '-')).length
  let lexeme :=
    if 0 < minusCount ∧ minusCount ≤ 3 then String.mk (input.take minusCount) else ""
  let rest :=
    if 0 < minusCount ∧ minusCount ≤ 3 then input.drop minusCount else input
  if lexeme = "-" then .ok (some (generateToken (some lexeme) TokenType.Minus), rest)
  else if lexeme = "--" then .ok (some (generateToken (some lexeme) TokenType.DMinus), rest)
  else .error ("unexpected token received in when parsing \"-\" and got: " ++ lexeme)

/-- NumberHandler.satisfies. -/
def numberSatisfies : List Char → Bool
  | c :: _ => isDigit c
  | [] => false

/-- NumberHandler.parse: the maximal run of digit characters. -/
def numberParse (input : List Char) : LexResult :=
  .ok (some (generateToken (some (String.mk (input.takeWhile isDigit))) TokenType.Number),
       input.dropWhile isDigit)

/-- LetHandler.satisfies: the regex match of slice(0, 4) against the anchored
pattern of the keyword let followed by a whitespace character, phrased as a
direct match on the input list. -/
def letSatisfies : List Char → Bool
  | c1 :: c2 :: c3 :: c4 :: _ => c1 == 'l' && c2 == 'e' && c3 == 't' && isWhitespace c4
  | _ => false

/-- LetHandler.parse: splice the three keyword characters. -/
def letParse (input : List Char) : LexResult :=
  .ok (some (generateToken (some (String.mk (input.take 3))) TokenType.Let), input.drop 3)

/-- ConstHandler.satisfies: the regex match of slice(0, 6) against the
anchored pattern of the keyword const followed by a whitespace character. -/
def constSatisfies : List Char → Bool
  | c1 :: c2 :: c3 :: c4 :: c5 :: c6 :: _ =>
    c1 == 'c' && c2 == 'o' && c3 == 'n' && c4 == 's' && c5 == 't' && isWhitespace c6
  | _ => false

/-- ConstHandler.parse: splice the five keyword characters. -/
def constParse (input : List Char) : LexResult :=
  .ok (some (generateToken (some (String.mk (input.take 5))) TokenType.Const), input.drop 5)

/-- FunctionHandler.satisfies: the next two characters are exactly fn (the
test of regex fn against slice(0, 2)). -/
def fnSatisfies : List Char → Bool
  | c1 :: c2 :: _ => c1 == 'f' && c2 == 'n'
  | _ => false

/-- FunctionHandler.parse: splice the two keyword characters. -/
def fnParse (input : List Char) : LexResult :=
  .ok (some (generateToken (some (String.mk (input.take 2))) TokenType.Function), input.drop 2)

/-- SymbolHandler.satisfies. -/
def symbolSatisfies : List Char → Bool
  | c :: _ => isSymbol c
  | [] => false

/-- SymbolHandler.parse: one unconditional character followed by the maximal
run of symbol characters. -/
def symbolParse : List Char → LexResult
  | [] => .error "unable to retrieve invalid character"
  | c :: rest =>
    .ok (some (generateToken (some (String.mk (c :: rest.takeWhile isSymbol))) TokenType.Symbol),
         rest.dropWhile isSymbol)

/-! ## The tokenize loop -/

/-- One iteration of the loop body of Lexer.tokenize: the fast-path switch of
evalToken, then the handler chain in its construction order with
SymbolHandler forced last, then the failure of evalToken when nothing
matches. -/
def step (input : List Char) : LexResult :=
  match input with
  | [] => .ok (none, [])
  | c :: _ =>
    if isFastPath c then fastPathParse input
    else if quoteSatisfies input then quoteParse input
    else if spaceSatisfies input then spaceParse input
    else if equalSatisfies input then equalParse input
    else if minusSatisfies input then minusParse input
    else if numberSatisfies input then numberParse input
    else if letSatisfies input then letParse input
    else if constSatisfies input then constParse input
    else if fnSatisfies input then fnParse input
    else if symbolSatisfies input then symbolParse input
    else .error ("unable to lex token from " ++ String.mk [c])

/-- Lexer.tokenize as a fuelled loop: while input remains, run one step,
keep any produced token, and continue on the remaining input; once the
buffer is empty append the single end-of-input token.  The fuel argument
only bounds the iteration count; tokenize supplies enough fuel for the
loop to reach the empty buffer (each successful step consumes at least one
character, a fact proved below). -/
def tokenizeFuel : Nat → List Char → Except String (List Token)
  | _, [] => .ok [generateToken none TokenType.EOF]
  | 0, _ :: _ => .error "lexer fuel exhausted"
  | fuel + 1, c :: rest =>
    match step (c :: rest) with
    | .error e => .error e
    | .ok (none, rest2) => tokenizeFuel fuel rest2
    | .ok (some t, rest2) =>
      match tokenizeFuel fuel rest2 with
      | .error e => .error e
      | .ok ts => .ok (t :: ts)

/-- Lexer.tokenize. -/
def tokenize (input : List Char) : Except String (List Token) :=
  tokenizeFuel (input.length + 1) input

/-! ## The parser

Modelled from the spec: the parser source file itself is not part of the
available sources (only its test file is), so the definitions below follow
the specification of the recursive-descent parser (statement dispatch on
the leading token; a two-tier expression grammar with a term level for
multiplication and division nested under an additive level for addition
and subtraction, both left-associative) together with the AST shapes the
test file asserts. -/

/-- Modelled from the spec: the expression AST nodes (NumberExpression,
StringExpression and BinaryExpression with its operand pair and operator
token). -/
inductive Expr where
  | NumberExpression (literal : Nat)
  | StringExpression (literal : String)
  | BinaryExpression (leftOperand : Expr) (operator : Token) (rightOperand : Expr)
deriving DecidableEq, Repr

/-- Modelled from the spec: the statement AST nodes. -/
inductive Stmt where
  | LetStatement (identifier : String) (expression : Expr)
  | ConstStatement (identifier : String) (expression : Expr)
  | FunctionStatement (identifier : String) (body : List Stmt)

/-- Modelled from the spec: the Program root node with its ordered statement
body. -/
structure Program where
  body : List Stmt

/-- Decimal reading of a digit run, most significant digit first. -/
def digitsToNat : List Char → Nat → Nat
  | [], acc => acc
  | c :: cs, acc => digitsToNat cs (acc * 10 + (c.toNat - 48))

/-- Modelled from the spec: the numeric literal carried by a Number token,
as the number the test file expects for the token text. -/
def numLit (t : Token) : Nat :=
  digitsToNat (t.value.getD "").data 0

/-- Result type of the parsing functions: a parsed node and the remaining
tokens, or a parse error. -/
abbrev ParseResult (α : Type) := Except String (α × List Token)

/-- Modelled from the spec: primary expressions are numeric or string
literals. -/
def parsePrimary : List Token → ParseResult Expr
  | t :: rest =>
    if t.type = TokenType.Number then .ok (.NumberExpression (numLit t), rest)
    else if t.type = TokenType.String then .ok (.StringExpression (t.value.getD ""), rest)
    else .error "ParseError: expected an expression"
  | [] => .error "ParseError: unexpected end of tokens in expression"

/-- Modelled from the spec: the left-associative loop of the term level,
folding further primaries onto the accumulator while the next token is a
multiplication or division operator. -/
def termLoop : Nat → Expr → List Token → ParseResult Expr
  | 0, _, _ => .error "ParseError: parser fuel exhausted"
  | fuel + 1, acc, toks =>
    match toks with
    | op :: rest =>
      if op.type = TokenType.Mult ∨ op.type = TokenType.Div then
        match parsePrimary rest with
        | .error e => .error e
        | .ok (rhs, rest2) => termLoop fuel (.BinaryExpression acc op rhs) rest2
      else .ok (acc, toks)
    | [] => .ok (acc, toks)

/-- Modelled from the spec: the term level of the expression grammar. -/
def parseTerm (fuel : Nat) (toks : List Token) : ParseResult Expr :=
  match parsePrimary toks with
  | .error e => .error e
  | .ok (lhs, rest) => termLoop fuel lhs rest

/-- Modelled from the spec: the left-associative loop of the additive
level. -/
def addLoop : Nat → Expr → List Token → ParseResult Expr
  | 0, _, _ => .error "ParseError: parser fuel exhausted"
  | fuel + 1, acc, toks =>
    match toks with
    | op :: rest =>
      if op.type = TokenType.Add ∨ op.type = TokenType.Minus then
        match parseTerm fuel rest with
        | .error e => .error e
        | .ok (rhs, rest2) => addLoop fuel (.BinaryExpression acc op rhs) rest2
      else .ok (acc, toks)
    | [] => .ok (acc, toks)

/-- Modelled from the spec: expressions are additive chains of terms. -/
def parseExpression (fuel : Nat) (toks : List Token) : ParseResult Expr :=
  match parseTerm fuel toks with
  | .error e => .error e
  | .ok (lhs, rest) => addLoop fuel lhs rest

/-- Modelled from the spec: the shared tail of let and const statements, an
identifier, an equals sign, an initializer expression and the statement
terminator. -/
def parseBindingTail (rest : List Token) (mk : String → Expr → Stmt) :
    ParseResult Stmt :=
  match rest with
  | id :: eq :: rest2 =>
    if id.type = TokenType.Symbol ∧ eq.type = TokenType.Eq then
      match parseExpression (rest2.length + 1) rest2 with
      | .error e => .error e
      | .ok (e, rest3) =>
        match rest3 with
        | semi :: rest4 =>
          if semi.type = TokenType.Semicolon then .ok (mk (id.value.getD "") e, rest4)
          else .error "ParseError: expected a semicolon"
        | [] => .error "ParseError: expected a semicolon"
    else .error "ParseError: expected an identifier and an equals sign"
  | _ => .error "ParseError: expected an identifier and an equals sign"

mutual

/-- Modelled from the spec: statement dispatch on the leading token type. -/
def parseStatementFuel : Nat → List Token → ParseResult Stmt
  | 0, _ => .error "ParseError: parser fuel exhausted"
  | _ + 1, [] => .error "ParseError: unexpected end of tokens"
  | fuel + 1, t :: rest =>
    if t.type = TokenType.Let then parseBindingTail rest .LetStatement
    else if t.type = TokenType.Const then parseBindingTail rest .ConstStatement
    else if t.type = TokenType.Function then
      match rest with
      | id :: lp :: rp :: lb :: rest2 =>
        if id.type = TokenType.Symbol ∧ lp.type = TokenType.LeftParen ∧
            rp.type = TokenType.RightParen ∧ lb.type = TokenType.LeftBrace then
          match parseBodyFuel fuel rest2 with
          | .error e => .error e
          | .ok (body, rest3) => .ok (.FunctionStatement (id.value.getD "") body, rest3)
        else .error "ParseError: malformed function header"
      | _ => .error "ParseError: malformed function header"
    else .error "ParseError: token cannot begin a statement"

/-- Modelled from the spec: a nested statement list parsed until the matching
closing brace. -/
def parseBodyFuel : Nat → List Token → ParseResult (List Stmt)
  | 0, _ => .error "ParseError: parser fuel exhausted"
  | _ + 1, [] => .error "ParseError: missing closing brace"
  | fuel + 1, t :: rest =>
    if t.type = TokenType.RightBrace then .ok ([], rest)
    else
      match parseStatementFuel fuel (t :: rest) with
      | .error e => .error e
      | .ok (s, rest2) =>
        match parseBodyFuel fuel rest2 with
        | .error e => .error e
        | .ok (ss, rest3) => .ok (s :: ss, rest3)

end

/-- Modelled from the spec: the top level repeatedly parses statements until
the end-of-input token is reached. -/
def parseProgramFuel : Nat → List Token → Except String (List Stmt)
  | 0, _ => .error "ParseError: parser fuel exhausted"
  | _ + 1, [] => .error "ParseError: missing end-of-input token"
  | fuel + 1, t :: rest =>
    if t.type = TokenType.EOF then .ok []
    else
      match parseStatementFuel (rest.length + 1) (t :: rest) with
      | .error e => .error e
      | .ok (s, rest2) =>
        match parseProgramFuel fuel rest2 with
        | .error e => .error e
        | .ok ss => .ok (s :: ss)

/-- Modelled from the spec: the parse entry point over a token sequence. -/
def parseTokens (tokens : List Token) : Except String Program :=
  match parseProgramFuel (tokens.length + 1) tokens with
  | .error e => .error e
  | .ok ss => .ok ⟨ss⟩

/-- The tokenizer and the parser composed, the pipeline the test file
exercises. -/
def lexParse (input : List Char) : Except String Program :=
  match tokenize input with
  | .error e => .error e
  | .ok ts => parseTokens ts

/-! ## Basic lemmas about the embedding -/

theorem generateToken_type (v : Option String) (ty : TokenType) :
    (generateToken v ty).type = ty := by
  unfold generateToken
  split <;> rfl

theorem stringMk_cons_ne_empty (c : Char) (l : List Char) :
    String.mk (c :: l) ≠ "" := by
  intro h
  have h2 := congrArg String.data h
  simp at h2

theorem generateToken_cons (c : Char) (l : List Char) (ty : TokenType) :
    generateToken (some (String.mk (c :: l))) ty =
      { value := some (String.mk (c :: l)), type := ty } := by
  unfold generateToken
  rw [if_neg]
  simp [stringMk_cons_ne_empty]

theorem isAlpha_class (c : Char) (h : isAlpha c = true) :
    isFastPath c = false ∧ isWhitespace c = false ∧ isDigit c = false ∧
      c.toNat ≠ 34 ∧ c.toNat ≠ 39 ∧ c.toNat ≠ 61 ∧ c.toNat ≠ 45 := by
  simp only [isAlpha, Bool.or_eq_true, decide_eq_true_eq] at h
  simp only [isFastPath, isWhitespace, isDigit, Bool.or_eq_false_iff,
    decide_eq_false_iff_not]
  omega

theorem isDigit_class (c : Char) (h : isDigit c = true) :
    isFastPath c = false ∧ isWhitespace c = false ∧ isAlpha c = false ∧
      c.toNat ≠ 34 ∧ c.toNat ≠ 39 ∧ c.toNat ≠ 61 ∧ c.toNat ≠ 45 := by
  simp only [isDigit, decide_eq_true_eq] at h
  simp only [isFastPath, isWhitespace, isAlpha, Bool.or_eq_false_iff,
    decide_eq_false_iff_not]
  omega

theorem isSymbol_not_ws (c : Char) (h : isSymbol c = true) :
    isWhitespace c = false := by
  simp only [isSymbol, isAlpha, isUnderscore, Bool.or_eq_true, decide_eq_true_eq] at h
  simp only [isWhitespace, Bool.or_eq_false_iff, decide_eq_false_iff_not]
  omega

theorem beq_false_of_toNat_ne (c d : Char) (h : c.toNat ≠ d.toNat) :
    (c == d) = false := by
  simp only [beq_eq_false_iff_ne, ne_eq]
  intro e
  subst e
  exact h rfl

theorem quoteChar_class (q : Char) (h : q = dquoteChar ∨ q = squoteChar) :
    isFastPath q = false ∧ ∀ rest, quoteSatisfies (q :: rest) = true := by
  cases h <;> subst q
  · exact ⟨by decide, fun rest => rfl⟩
  · exact ⟨by decide, fun rest => by simp [quoteSatisfies, squoteChar]⟩

theorem letSatisfies_of_symbols (l : List Char) (h : ∀ x ∈ l, isSymbol x = true) :
    letSatisfies l = false := by
  unfold letSatisfies
  split
  · next c1 c2 c3 c4 tail =>
    have h4 : isWhitespace c4 = false := by
      apply isSymbol_not_ws
      exact h c4 (by simp)
    simp [h4]
  · rfl

theorem constSatisfies_of_symbols (l : List Char) (h : ∀ x ∈ l, isSymbol x = true) :
    constSatisfies l = false := by
  unfold constSatisfies
  split
  · next c1 c2 c3 c4 c5 c6 tail =>
    have h6 : isWhitespace c6 = false := by
      apply isSymbol_not_ws
      exact h c6 (by simp)
    simp [h6]
  · rfl

theorem letSatisfies_of_not_ws (l : List Char) (h : ∀ x ∈ l, isWhitespace x = false) :
    letSatisfies l = false := by
  unfold letSatisfies
  split
  · next c1 c2 c3 c4 tail => simp [h c4 (by simp)]
  · rfl

theorem constSatisfies_of_not_ws (l : List Char) (h : ∀ x ∈ l, isWhitespace x = false) :
    constSatisfies l = false := by
  unfold constSatisfies
  split
  · next c1 c2 c3 c4 c5 c6 tail => simp [h c6 (by simp)]
  · rfl

theorem fnSatisfies_of_take_two (l : List Char) (h : l.take 2 ≠ ['f', 'n']) :
    fnSatisfies l = false := by
  unfold fnSatisfies
  split
  · next c1 c2 tail =>
    simp only [List.take, List.take_succ_cons] at h
    simp only [Bool.and_eq_false_iff, beq_eq_false_iff_ne, ne_eq]
    by_cases h1 : c1 = 'f'
    · subst h1
      right
      intro h2
      exact h (by rw [h2])
    · left
      exact h1
  · rfl

theorem length_dropWhile_le (p : Char → Bool) (l : List Char) :
    (l.dropWhile p).length ≤ l.length := by
  induction l with
  | nil => simp
  | cons a t ih =>
    by_cases h : p a = true
    · rw [List.dropWhile_cons_of_pos h]
      exact Nat.le_trans ih (by simp)
    · rw [List.dropWhile_cons_of_neg (by simp [h])]

theorem takeWhile_bne_of_not_mem (q : Char) (mid rest : List Char) (h : q ∉ mid) :
    (mid ++ q :: rest).takeWhile (fun c => c != q) = mid ∧
      (mid ++ q :: rest).dropWhile (fun c => c != q) = q :: rest := by
  induction mid with
  | nil =>
    constructor
    · rw [List.nil_append, List.takeWhile_cons_of_neg (by simp)]
    · rw [List.nil_append, List.dropWhile_cons_of_neg (by simp)]
  | cons a t ih =>
    have ha : (a != q) = true := by
      simp only [bne_iff_ne, ne_eq]
      intro e
      exact h (by simp [e])
    have h2 : q ∉ t := fun hm => h (List.mem_cons_of_mem _ hm)
    obtain ⟨ih1, ih2⟩ := ih h2
    constructor
    · rw [List.cons_append,
        @List.takeWhile_cons_of_pos _ (fun c => c != q) a (t ++ q :: rest) ha, ih1]
    · rw [List.cons_append,
        @List.dropWhile_cons_of_pos _ (fun c => c != q) a (t ++ q :: rest) ha, ih2]

theorem takeWhile_all (p : Char → Bool) (l : List Char) (h : ∀ x ∈ l, p x = true) :
    l.takeWhile p = l ∧ l.dropWhile p = [] := by
  constructor
  · exact List.takeWhile_eq_self_iff.mpr h
  · exact List.dropWhile_eq_nil_iff.mpr h

theorem fastPathLookup_ne_eof (c : Char) : fastPathLookup c ≠ TokenType.EOF := by
  unfold fastPathLookup
  split_ifs <;> simp

set_option maxHeartbeats 2000000 in
/-- Every successful iteration of the tokenize loop consumes at least one
character of the input buffer. -/
theorem step_length_lt (c : Char) (rest : List Char) (t2 : Option Token)
    (rest2 : List Char) (h : step (c :: rest) = .ok (t2, rest2)) :
    rest2.length < (c :: rest).length := by
  simp only [step] at h
  split_ifs at h with h1 h2 h3 h4 h5 h6 h7 h8 h9 h10
  · -- fast path
    simp only [fastPathParse, Except.ok.injEq, Prod.mk.injEq] at h
    obtain ⟨-, hr⟩ := h
    subst hr
    simp
  · -- quote strategy
    simp only [quoteParse] at h
    split at h
    · rename_i x endQuote rest3 heq
      split_ifs at h with hq
      simp only [Except.ok.injEq, Prod.mk.injEq] at h
      obtain ⟨-, hr⟩ := h
      subst hr
      have hle := length_dropWhile_le (fun x => x != c) rest
      rw [heq] at hle
      simp only [List.length_cons] at hle ⊢
      omega
    · exact Except.noConfusion h
  · -- whitespace strategy
    have hc : isWhitespace c = true := h3
    simp only [spaceParse, Except.ok.injEq, Prod.mk.injEq] at h
    obtain ⟨-, hr⟩ := h
    subst hr
    rw [List.dropWhile_cons_of_pos hc]
    have hle := length_dropWhile_le isWhitespace rest
    simp only [List.length_cons]
    omega
  · -- equals strategy
    have hc : c = '=' := by simpa [equalSatisfies] using h4
    subst hc
    have hpos : 0 < ((('=' :: rest).take 3).filter (fun x => x == '=')).length := by
      rw [List.take_succ_cons, List.filter_cons]
      simp
    have hle3 : ((('=' :: rest).take 3).filter (fun x => x == '=')).length ≤ 3 := by
      have hf := List.length_filter_le (fun x => x == '=') (('=' :: rest).take 3)
      have ht := List.length_take 3 ('=' :: rest)
      omega
    simp only [equalParse] at h
    simp only [if_pos (And.intro hpos hle3)] at h
    split_ifs at h <;>
      (simp only [Except.ok.injEq, Prod.mk.injEq] at h
       obtain ⟨-, hr⟩ := h
       subst hr
       rw [List.length_drop]
       simp only [List.length_cons] at hpos ⊢
       omega)
  · -- minus strategy
    have hc : c = '-' := by simpa [minusSatisfies] using h5
    subst hc
    have hpos : 0 < ((('-' :: rest).take 2).filter (fun x => x == '-')).length := by
      rw [List.take_succ_cons, List.filter_cons]
      simp
    have hle3 : ((('-' :: rest).take 2).filter (fun x => x == '-')).length ≤ 3 := by
      have hf := List.length_filter_le (fun x => x == '-') (('-' :: rest).take 2)
      have ht := List.length_take 2 ('-' :: rest)
      omega
    simp only [minusParse] at h
    simp only [if_pos (And.intro hpos hle3)] at h
    split_ifs at h <;>
      (simp only [Except.ok.injEq, Prod.mk.injEq] at h
       obtain ⟨-, hr⟩ := h
       subst hr
       rw [List.length_drop]
       simp only [List.length_cons] at hpos ⊢
       omega)
  · -- number strategy
    have hc : isDigit c = true := h6
    simp only [numberParse, Except.ok.injEq, Prod.mk.injEq] at h
    obtain ⟨-, hr⟩ := h
    subst hr
    rw [List.dropWhile_cons_of_pos hc]
    have hle := length_dropWhile_le isDigit rest
    simp only [List.length_cons]
    omega
  · -- let strategy
    simp only [letParse, Except.ok.injEq, Prod.mk.injEq] at h
    obtain ⟨-, hr⟩ := h
    subst hr
    rw [List.length_drop]
    simp only [List.length_cons]
    omega
  · -- const strategy
    simp only [constParse, Except.ok.injEq, Prod.mk.injEq] at h
    obtain ⟨-, hr⟩ := h
    subst hr
    rw [List.length_drop]
    simp only [List.length_cons]
    omega
  · -- fn strategy
    simp only [fnParse, Except.ok.injEq, Prod.mk.injEq] at h
    obtain ⟨-, hr⟩ := h
    subst hr
    rw [List.length_drop]
    simp only [List.length_cons]
    omega
  · -- symbol strategy
    simp only [symbolParse, Except.ok.injEq, Prod.mk.injEq] at h
    obtain ⟨-, hr⟩ := h
    subst hr
    have hle := length_dropWhile_le isSymbol rest
    simp only [List.length_cons]
    omega

set_option maxHeartbeats 2000000 in
/-- No token produced by a loop iteration is the end-of-input token. -/
theorem step_token_not_eof (l : List Char) (t : Token) (r : List Char)
    (h : step l = .ok (some t, r)) : t.type ≠ TokenType.EOF := by
  match l with
  | [] => simp [step] at h
  | c :: rest =>
    simp only [step] at h
    split_ifs at h with h1 h2 h3 h4 h5 h6 h7 h8 h9 h10
    · simp only [fastPathParse, Except.ok.injEq, Prod.mk.injEq, Option.some.injEq] at h
      obtain ⟨ht, -⟩ := h
      rw [← ht, generateToken_type]
      exact fastPathLookup_ne_eof c
    · simp only [quoteParse] at h
      split at h
      · split_ifs at h with hq
        simp only [Except.ok.injEq, Prod.mk.injEq, Option.some.injEq] at h
        obtain ⟨ht, -⟩ := h
        rw [← ht, generateToken_type]
        simp
      · exact Except.noConfusion h
    · simp [spaceParse] at h
    · simp only [equalParse] at h
      split_ifs at h <;>
        first
        | (simp only [Except.ok.injEq, Prod.mk.injEq, Option.some.injEq] at h
           obtain ⟨ht, -⟩ := h
           rw [← ht, generateToken_type]
           simp)
        | simp at h
    · simp only [minusParse] at h
      split_ifs at h <;>
        (simp only [Except.ok.injEq, Prod.mk.injEq, Option.some.injEq] at h
         obtain ⟨ht, -⟩ := h
         rw [← ht, generateToken_type]
         simp)
    · simp only [numberParse, Except.ok.injEq, Prod.mk.injEq, Option.some.injEq] at h
      obtain ⟨ht, -⟩ := h
      rw [← ht, generateToken_type]
      simp
    · simp only [letParse, Except.ok.injEq, Prod.mk.injEq, Option.some.injEq] at h
      obtain ⟨ht, -⟩ := h
      rw [← ht, generateToken_type]
      simp
    · simp only [constParse, Except.ok.injEq, Prod.mk.injEq, Option.some.injEq] at h
      obtain ⟨ht, -⟩ := h
      rw [← ht, generateToken_type]
      simp
    · simp only [fnParse, Except.ok.injEq, Prod.mk.injEq, Option.some.injEq] at h
      obtain ⟨ht, -⟩ := h
      rw [← ht, generateToken_type]
      simp
    · simp only [symbolParse, Except.ok.injEq, Prod.mk.injEq, Option.some.injEq] at h
      obtain ⟨ht, -⟩ := h
      rw [← ht, generateToken_type]
      simp

theorem tokenizeFuel_nil (fuel : Nat) :
    tokenizeFuel fuel [] = .ok [generateToken none TokenType.EOF] := by
  cases fuel <;> rfl

theorem tokenizeFuel_cons (fuel : Nat) (c : Char) (rest : List Char) :
    tokenizeFuel (fuel + 1) (c :: rest) =
      (match step (c :: rest) with
       | .error e => .error e
       | .ok (none, rest2) => tokenizeFuel fuel rest2
       | .ok (some t, rest2) =>
         match tokenizeFuel fuel rest2 with
         | .error e => .error e
         | .ok ts => .ok (t :: ts)) := rfl

theorem tokenizeFuel_cons_err (fuel : Nat) (c : Char) (rest : List Char)
    (e : String) (h : step (c :: rest) = .error e) :
    tokenizeFuel (fuel + 1) (c :: rest) = .error e := by
  rw [tokenizeFuel_cons, h]

theorem tokenizeFuel_cons_none (fuel : Nat) (c : Char) (rest rest2 : List Char)
    (h : step (c :: rest) = .ok (none, rest2)) :
    tokenizeFuel (fuel + 1) (c :: rest) = tokenizeFuel fuel rest2 := by
  rw [tokenizeFuel_cons, h]

theorem tokenizeFuel_cons_some (fuel : Nat) (c : Char) (rest rest2 : List Char)
    (t : Token) (h : step (c :: rest) = .ok (some t, rest2)) :
    tokenizeFuel (fuel + 1) (c :: rest) =
      (match tokenizeFuel fuel rest2 with
       | .error e => .error e
       | .ok ts => .ok (t :: ts)) := by
  rw [tokenizeFuel_cons, h]

/-- The fuel argument is irrelevant as soon as it exceeds the input length:
the loop always reaches the empty buffer first. -/
theorem tokenizeFuel_congr (fuel1 : Nat) :
    ∀ fuel2 input, input.length < fuel1 → input.length < fuel2 →
      tokenizeFuel fuel1 input = tokenizeFuel fuel2 input := by
  induction fuel1 with
  | zero =>
    intro fuel2 input h1 h2
    exact absurd h1 (Nat.not_lt_zero _)
  | succ f ih =>
    intro fuel2 input h1 h2
    match input with
    | [] => rw [tokenizeFuel_nil, tokenizeFuel_nil]
    | c :: rest =>
      match fuel2 with
      | 0 => exact absurd h2 (Nat.not_lt_zero _)
      | f2 + 1 =>
        cases hstep : step (c :: rest) with
        | error e =>
          rw [tokenizeFuel_cons_err f c rest e hstep,
            tokenizeFuel_cons_err f2 c rest e hstep]
        | ok p =>
          obtain ⟨t2, rest2⟩ := p
          have hlt := step_length_lt c rest t2 rest2 hstep
          have hr1 : rest2.length < f := by
            simp only [List.length_cons] at hlt h1
            omega
          have hr2 : rest2.length < f2 := by
            simp only [List.length_cons] at hlt h2
            omega
          cases t2 with
          | none =>
            rw [tokenizeFuel_cons_none f c rest rest2 hstep,
              tokenizeFuel_cons_none f2 c rest rest2 hstep]
            exact ih f2 rest2 hr1 hr2
          | some t =>
            rw [tokenizeFuel_cons_some f c rest rest2 t hstep,
              tokenizeFuel_cons_some f2 c rest rest2 t hstep,
              ih f2 rest2 hr1 hr2]

/-- Every successful run of the fuelled loop produces a list of tokens none
of which is the end-of-input token, followed by exactly one end-of-input
token. -/
theorem tokenizeFuel_eof (fuel : Nat) :
    ∀ input ts, tokenizeFuel fuel input = .ok ts →
      ∃ pre, ts = pre ++ [generateToken none TokenType.EOF] ∧
        ∀ t ∈ pre, t.type ≠ TokenType.EOF := by
  induction fuel with
  | zero =>
    intro input ts h
    match input with
    | [] =>
      rw [tokenizeFuel_nil] at h
      simp only [Except.ok.injEq] at h
      subst h
      exact ⟨[], rfl, by simp⟩
    | c :: rest => simp [tokenizeFuel] at h
  | succ f ih =>
    intro input ts h
    match input with
    | [] =>
      rw [tokenizeFuel_nil] at h
      simp only [Except.ok.injEq] at h
      subst h
      exact ⟨[], rfl, by simp⟩
    | c :: rest =>
      cases hstep : step (c :: rest) with
      | error e =>
        rw [tokenizeFuel_cons_err f c rest e hstep] at h
        simp at h
      | ok p =>
        obtain ⟨t2, rest2⟩ := p
        cases t2 with
        | none =>
          rw [tokenizeFuel_cons_none f c rest rest2 hstep] at h
          exact ih rest2 ts h
        | some t =>
          rw [tokenizeFuel_cons_some f c rest rest2 t hstep] at h
          cases hrec : tokenizeFuel f rest2 with
          | error e => rw [hrec] at h; simp at h
          | ok ts2 =>
            rw [hrec] at h
            simp only [Except.ok.injEq] at h
            subst h
            obtain ⟨pre, hpre, hne⟩ := ih rest2 ts2 hrec
            refine ⟨t :: pre, by rw [hpre]; rfl, ?_⟩
            intro x hx
            rcases List.mem_cons.mp hx with hx | hx
            · subst hx
              exact step_token_not_eof _ _ _ hstep
            · exact hne x hx

/-! ## Dispatch lemmas: which strategy handles which input shape -/

/-- On an input of symbol characters whose first character is alphabetic and
that does not start with the two characters fn, the loop dispatches to the
symbol strategy, which consumes the whole input. -/
theorem step_symbol_run (c : Char) (rest : List Char)
    (hc : isAlpha c = true)
    (hall : ∀ x ∈ c :: rest, isSymbol x = true)
    (hfn : (c :: rest).take 2 ≠ ['f', 'n']) :
    step (c :: rest) =
      .ok (some { value := some (String.mk (c :: rest)), type := TokenType.Symbol }, []) := by
  obtain ⟨hfp, hws, hdig, h34, h39, h61, h45⟩ := isAlpha_class c hc
  have hq : quoteSatisfies (c :: rest) = false := by
    show (c == dquoteChar || c == squoteChar) = false
    rw [beq_false_of_toNat_ne c dquoteChar h34, beq_false_of_toNat_ne c squoteChar h39]
    rfl
  have hsp : spaceSatisfies (c :: rest) = false := hws
  have heq : equalSatisfies (c :: rest) = false := beq_false_of_toNat_ne c '=' h61
  have hmin : minusSatisfies (c :: rest) = false := beq_false_of_toNat_ne c '-' h45
  have hnum : numberSatisfies (c :: rest) = false := hdig
  have hlet := letSatisfies_of_symbols (c :: rest) hall
  have hconst := constSatisfies_of_symbols (c :: rest) hall
  have hfn2 := fnSatisfies_of_take_two (c :: rest) hfn
  have hsym : symbolSatisfies (c :: rest) = true := hall c (by simp)
  have htail : ∀ x ∈ rest, isSymbol x = true :=
    fun x hx => hall x (List.mem_cons_of_mem _ hx)
  obtain ⟨htake, hdrop⟩ := takeWhile_all isSymbol rest htail
  simp only [step, hfp, hq, hsp, heq, hmin, hnum, hlet, hconst, hfn2, hsym,
    Bool.false_eq_true, if_false, if_true, symbolParse]
  rw [htake, hdrop, generateToken_cons]

/-- On an all-digit input the loop dispatches to the numeric strategy, which
consumes the whole input. -/
theorem step_digit_run (c : Char) (rest : List Char)
    (hall : ∀ x ∈ c :: rest, isDigit x = true) :
    step (c :: rest) =
      .ok (some { value := some (String.mk (c :: rest)), type := TokenType.Number }, []) := by
  have hc : isDigit c = true := hall c (by simp)
  obtain ⟨hfp, hws, half, h34, h39, h61, h45⟩ := isDigit_class c hc
  have hq : quoteSatisfies (c :: rest) = false := by
    show (c == dquoteChar || c == squoteChar) = false
    rw [beq_false_of_toNat_ne c dquoteChar h34, beq_false_of_toNat_ne c squoteChar h39]
    rfl
  have hsp : spaceSatisfies (c :: rest) = false := hws
  have heq : equalSatisfies (c :: rest) = false := beq_false_of_toNat_ne c '=' h61
  have hmin : minusSatisfies (c :: rest) = false := beq_false_of_toNat_ne c '-' h45
  have hnum : numberSatisfies (c :: rest) = true := hc
  obtain ⟨htake, hdrop⟩ := takeWhile_all isDigit (c :: rest) hall
  simp only [step, hfp, hq, hsp, heq, hmin, hnum,
    Bool.false_eq_true, if_false, if_true, numberParse]
  rw [htake, hdrop, generateToken_cons]

/-- A quote with no matching end quote in the remaining input makes the quote
strategy fail with the diagnostic message over the captured text. -/
theorem step_quote_unterminated (q : Char) (rest : List Char)
    (hq : q = dquoteChar ∨ q = squoteChar) (hmem : q ∉ rest) :
    step (q :: rest) = .error (quoteErrMsg q rest) := by
  obtain ⟨hfp, hqs⟩ := quoteChar_class q hq
  have hall : ∀ x ∈ rest, (x != q) = true := by
    intro x hx
    simp only [bne_iff_ne, ne_eq]
    intro e
    subst e
    exact hmem hx
  obtain ⟨htake, hdrop⟩ := takeWhile_all (fun x => x != q) rest hall
  simp only [step, hfp, hqs rest, Bool.false_eq_true, if_false, if_true, quoteParse]
  rw [htake, hdrop]

/-- A quote with a matching end quote captures the characters in between
verbatim and produces a String token. -/
theorem step_quote_terminated (q : Char) (mid rest : List Char)
    (hq : q = dquoteChar ∨ q = squoteChar) (hmem : q ∉ mid) :
    step (q :: (mid ++ q :: rest)) =
      .ok (some (generateToken (some (String.mk mid)) TokenType.String), rest) := by
  obtain ⟨hfp, hqs⟩ := quoteChar_class q hq
  obtain ⟨htake, hdrop⟩ := takeWhile_bne_of_not_mem q mid rest hmem
  simp only [step, hfp, hqs _, Bool.false_eq_true, if_false, if_true, quoteParse]
  rw [htake, hdrop]
  simp

/-- On an equals sign the loop dispatches to the equals strategy. -/
theorem step_eq_dispatch (rest : List Char) :
    step ('=' :: rest) = equalParse ('=' :: rest) := rfl

/-- On a minus sign the loop dispatches to the minus strategy. -/
theorem step_minus_dispatch (rest : List Char) :
    step ('-' :: rest) = minusParse ('-' :: rest) := rfl

/-- The two characters fn are always taken by the function strategy,
producing the Function keyword token with no look beyond them. -/
theorem step_fn (rest : List Char) :
    step ('f' :: 'n' :: rest) =
      .ok (some { value := some "fn", type := TokenType.Function }, rest) := by
  have hlet : letSatisfies ('f' :: 'n' :: rest) = false := by
    unfold letSatisfies
    split
    · rename_i heq
      injection heq with e1 heq2
      subst e1
      simp
    · rfl
  have hconst : constSatisfies ('f' :: 'n' :: rest) = false := by
    unfold constSatisfies
    split
    · rename_i heq
      injection heq with e1 heq2
      subst e1
      simp
    · rfl
  simp only [step, hlet, hconst, Bool.false_eq_true, if_false]
  rfl

/-- The keyword let followed by a whitespace character is taken by the let
strategy, which consumes exactly the keyword. -/
theorem step_let (c : Char) (rest : List Char) (hws : isWhitespace c = true) :
    step ('l' :: 'e' :: 't' :: c :: rest) =
      .ok (some { value := some "let", type := TokenType.Let }, c :: rest) := by
  have hsat : letSatisfies ('l' :: 'e' :: 't' :: c :: rest) = true := by
    show (('l' == 'l') && ('e' == 'e') && ('t' == 't') && isWhitespace c) = true
    rw [hws]
    rfl
  simp only [step, hsat, if_true]
  rfl

/-- The keyword const followed by a whitespace character is taken by the
const strategy, which consumes exactly the keyword. -/
theorem step_const (c : Char) (rest : List Char) (hws : isWhitespace c = true) :
    step ('c' :: 'o' :: 'n' :: 's' :: 't' :: c :: rest) =
      .ok (some { value := some "const", type := TokenType.Const }, c :: rest) := by
  have hlet : letSatisfies ('c' :: 'o' :: 'n' :: 's' :: 't' :: c :: rest) = false := by
    unfold letSatisfies
    split
    · rename_i heq
      injection heq with e1 heq2
      subst e1
      simp
    · rfl
  have hsat : constSatisfies ('c' :: 'o' :: 'n' :: 's' :: 't' :: c :: rest) = true := by
    show (('c' == 'c') && ('o' == 'o') && ('n' == 'n') && ('s' == 's') && ('t' == 't') &&
      isWhitespace c) = true
    rw [hws]
    rfl
  simp only [step, hlet, hsat, Bool.false_eq_true, if_false, if_true]
  rfl

/-! ## Shape lemmas for the equals and minus strategies -/

theorem equalParse_single : equalParse ['='] =
    .ok (some { value := some "=", type := TokenType.Eq }, []) := rfl

/-- An equals sign whose two-character window holds no further equals sign
produces the single-equals token and consumes one character. -/
theorem equalParse_lone (c : Char) (rest : List Char) (hc : c ≠ '=')
    (hr : rest.head? ≠ some '=') :
    equalParse ('=' :: c :: rest) =
      .ok (some { value := some "=", type := TokenType.Eq }, c :: rest) := by
  have hcb : (c == '=') = false := by simp [hc]
  match rest with
  | [] => simp [equalParse, hcb, generateToken]
  | d :: rest2 =>
    have hdb : (d == '=') = false := by
      simp only [List.head?, ne_eq, Option.some.injEq] at hr
      simp [hr]
    simp [equalParse, hcb, hdb, generateToken]

/-- A non-consecutive pair of equals signs in the three-character window
makes the equals strategy consume two characters, dropping the character in
between, and produce no token. -/
theorem equalParse_dropped (c : Char) (rest : List Char) (hc : c ≠ '=') :
    equalParse ('=' :: c :: '=' :: rest) = .ok (none, '=' :: rest) := by
  have hcb : (c == '=') = false := by simp [hc]
  have hne1 : String.mk ['=', c] ≠ "=" := by
    intro e
    have h2 := congrArg String.data e
    simp at h2
  have hne2 : String.mk ['=', c] ≠ "==" := by
    intro e
    have h2 := congrArg String.data e
    simp at h2
    exact hc h2
  have hne3 : String.mk ['=', c] ≠ "===" := by
    intro e
    have h2 := congrArg String.data e
    simp at h2
  simp [equalParse, hcb, hne1, hne2, hne3]

theorem equalParse_double (rest : List Char) (hr : rest.head? ≠ some '=') :
    equalParse ('=' :: '=' :: rest) =
      .ok (some { value := some "==", type := TokenType.Deq }, rest) := by
  match rest with
  | [] => rfl
  | d :: rest2 =>
    have hdb : (d == '=') = false := by
      simp only [List.head?, ne_eq, Option.some.injEq] at hr
      simp [hr]
    simp [equalParse, hdb, generateToken]

theorem equalParse_triple (rest : List Char) :
    equalParse ('=' :: '=' :: '=' :: rest) =
      .ok (some { value := some "===", type := TokenType.Teq }, rest) := rfl

theorem minusParse_single : minusParse ['-'] =
    .ok (some { value := some "-", type := TokenType.Minus }, []) := rfl

theorem minusParse_double (rest2 : List Char) : minusParse ('-' :: '-' :: rest2) =
    .ok (some { value := some "--", type := TokenType.DMinus }, rest2) := rfl

theorem minusParse_lone (d : Char) (rest2 : List Char) (hd : d ≠ '-') :
    minusParse ('-' :: d :: rest2) =
      .ok (some { value := some "-", type := TokenType.Minus }, d :: rest2) := by
  have hdb : (d == '-') = false := by simp [hd]
  simp [minusParse, hdb, generateToken]

/-! ## Lifting one step through tokenize -/

theorem tokenize_cons_err (c : Char) (rest : List Char) (e : String)
    (h : step (c :: rest) = .error e) : tokenize (c :: rest) = .error e := by
  unfold tokenize
  rw [List.length_cons]
  exact tokenizeFuel_cons_err _ c rest e h

/-- When the first step consumes the whole input and produces a token, the
token sequence is that token followed by the end-of-input token. -/
theorem tokenize_single_token (c : Char) (rest : List Char) (t : Token)
    (h : step (c :: rest) = .ok (some t, [])) :
    tokenize (c :: rest) = .ok [t, { value := none, type := TokenType.EOF }] := by
  unfold tokenize
  rw [List.length_cons, tokenizeFuel_cons_some _ c rest [] t h, tokenizeFuel_nil]
  rfl

/-! ## The claims -/

/-- Claim C1, counterexample: the claim that every string matching
[A-Za-z_]+ other than a reserved keyword lexes as a single Symbol token
fails on the inputs _a and fnord: a leading underscore is taken by the
single-character fast path as an Underscore token, and a leading fn is
taken by the function strategy, so neither input produces a single Symbol
token. -/
theorem claim_C1_counterexample :
    tokenize ['_', 'a'] =
      .ok [{ value := some "_", type := TokenType.Underscore },
           { value := some "a", type := TokenType.Symbol },
           { value := none, type := TokenType.EOF }] ∧
    ([{ value := some "_", type := TokenType.Underscore },
      { value := some "a", type := TokenType.Symbol },
      { value := none, type := TokenType.EOF }] : List Token) ≠
      [{ value := some "_a", type := TokenType.Symbol },
       { value := none, type := TokenType.EOF }] ∧
    tokenize ['f', 'n', 'o', 'r', 'd'] =
      .ok [{ value := some "fn", type := TokenType.Function },
           { value := some "ord", type := TokenType.Symbol },
           { value := none, type := TokenType.EOF }] ∧
    ([{ value := some "fn", type := TokenType.Function },
      { value := some "ord", type := TokenType.Symbol },
      { value := none, type := TokenType.EOF }] : List Token) ≠
      [{ value := some "fnord", type := TokenType.Symbol },
       { value := none, type := TokenType.EOF }] :=
  ⟨by rfl, by decide, by rfl, by decide⟩

/-- Claim C1, amended: every nonempty string of alphabetic characters and
underscores whose first character is alphabetic and whose first two
characters are not fn lexes as a single Symbol token carrying the whole
string verbatim, followed only by the end-of-input token; the symbol
strategy consumes the maximal run of alphabetic characters and
underscores. -/
theorem claim_C1_amended (c : Char) (rest : List Char)
    (hc : isAlpha c = true)
    (hall : ∀ x ∈ c :: rest, isSymbol x = true)
    (hfn : (c :: rest).take 2 ≠ ['f', 'n']) :
    tokenize (c :: rest) =
      .ok [{ value := some (String.mk (c :: rest)), type := TokenType.Symbol },
           { value := none, type := TokenType.EOF }] :=
  tokenize_single_token c rest _ (step_symbol_run c rest hc hall hfn)

/-- Witness for claim C1 at the concrete identifier ab. -/
theorem claim_C1_witness :
    isAlpha 'a' = true ∧ (∀ x ∈ (['a', 'b'] : List Char), isSymbol x = true) ∧
    (['a', 'b'] : List Char).take 2 ≠ ['f', 'n'] ∧
    tokenize ['a', 'b'] =
      .ok [{ value := some "ab", type := TokenType.Symbol },
           { value := none, type := TokenType.EOF }] :=
  ⟨by decide, by decide, by decide,
   claim_C1_amended 'a' ['b'] (by decide) (by decide) (by decide)⟩

/-- Claim C3, counterexample: the claim that a reserved keyword followed by
non-identifier-continuing input such as a semicolon or end of input lexes
as the keyword token fails for let and const: without a following
whitespace character the keyword strategies do not fire and the symbol
strategy produces a Symbol token instead. -/
theorem claim_C3_counterexample :
    tokenize ['l', 'e', 't', ';'] =
      .ok [{ value := some "let", type := TokenType.Symbol },
           { value := some ";", type := TokenType.Semicolon },
           { value := none, type := TokenType.EOF }] ∧
    tokenize ['c', 'o', 'n', 's', 't', ';'] =
      .ok [{ value := some "const", type := TokenType.Symbol },
           { value := some ";", type := TokenType.Semicolon },
           { value := none, type := TokenType.EOF }] ∧
    TokenType.Symbol ≠ TokenType.Let ∧ TokenType.Symbol ≠ TokenType.Const :=
  ⟨by rfl, by rfl, by decide, by decide⟩

/-- Claim C3, amended: let and const are recognized as keyword tokens
exactly when at least one whitespace character immediately follows the
keyword, in which case exactly the keyword is consumed; fn is taken by the
function strategy whenever the first two characters are fn, regardless of
what follows; without the following whitespace, lettuce and the bare
string let lex as single Symbol tokens. -/
theorem claim_C3_amended :
    (∀ (c : Char) (rest : List Char), isWhitespace c = true →
        step ('l' :: 'e' :: 't' :: c :: rest) =
          .ok (some { value := some "let", type := TokenType.Let }, c :: rest)) ∧
    (∀ (c : Char) (rest : List Char), isWhitespace c = true →
        step ('c' :: 'o' :: 'n' :: 's' :: 't' :: c :: rest) =
          .ok (some { value := some "const", type := TokenType.Const }, c :: rest)) ∧
    (∀ rest : List Char,
        step ('f' :: 'n' :: rest) =
          .ok (some { value := some "fn", type := TokenType.Function }, rest)) ∧
    tokenize ['l', 'e', 't', 't', 'u', 'c', 'e'] =
      .ok [{ value := some "lettuce", type := TokenType.Symbol },
           { value := none, type := TokenType.EOF }] ∧
    tokenize ['l', 'e', 't'] =
      .ok [{ value := some "let", type := TokenType.Symbol },
           { value := none, type := TokenType.EOF }] :=
  ⟨step_let, step_const, step_fn, by rfl, by rfl⟩

/-- Witness for claim C3 at the concrete input let-space-x. -/
theorem claim_C3_witness :
    isWhitespace ' ' = true ∧
    step ['l', 'e', 't', ' ', 'x'] =
      .ok (some { value := some "let", type := TokenType.Let }, [' ', 'x']) :=
  ⟨by decide, claim_C3_amended.1 ' ' ['x'] (by decide)⟩

/-- Claim C6: a nonempty all-digit input lexes as a single Number token
whose value is the digit run verbatim, followed only by the end-of-input
token; the numeric strategy consumes the maximal digit run. -/
theorem claim_C6 (c : Char) (rest : List Char)
    (hall : ∀ x ∈ c :: rest, isDigit x = true) :
    tokenize (c :: rest) =
      .ok [{ value := some (String.mk (c :: rest)), type := TokenType.Number },
           { value := none, type := TokenType.EOF }] :=
  tokenize_single_token c rest _ (step_digit_run c rest hall)

/-- Witness for claim C6 at the concrete digit run 42. -/
theorem claim_C6_witness :
    (∀ x ∈ (['4', '2'] : List Char), isDigit x = true) ∧
    tokenize ['4', '2'] =
      .ok [{ value := some "42", type := TokenType.Number },
           { value := none, type := TokenType.EOF }] :=
  ⟨by decide, claim_C6 '4' ['2'] (by decide)⟩

/-- Claim C7: whenever tokenize returns successfully the produced sequence
is a possibly empty list of non-end-of-input tokens followed by exactly one
end-of-input token, so the sequence is nonempty, ends with the end-of-input
token, and holds no other end-of-input token. -/
theorem claim_C7 (input : List Char) (ts : List Token)
    (h : tokenize input = .ok ts) :
    ∃ pre, ts = pre ++ [{ value := none, type := TokenType.EOF }] ∧
      ∀ t ∈ pre, t.type ≠ TokenType.EOF :=
  tokenizeFuel_eof (input.length + 1) input ts h

/-- Witness for claim C7 at the concrete input 1. -/
theorem claim_C7_witness :
    tokenize ['1'] =
      .ok [{ value := some "1", type := TokenType.Number },
           { value := none, type := TokenType.EOF }] ∧
    ∃ pre, ([{ value := some "1", type := TokenType.Number },
             { value := none, type := TokenType.EOF }] : List Token) =
        pre ++ [{ value := none, type := TokenType.EOF }] ∧
      ∀ t ∈ pre, t.type ≠ TokenType.EOF :=
  ⟨by rfl, claim_C7 ['1'] _ (by rfl)⟩

/-- Claim C9: an empty quoted string lexes successfully to a String token
whose value field is absent rather than the empty string, because token
construction omits every falsy value. -/
theorem claim_C9 :
    tokenize [squoteChar, squoteChar] =
      .ok [{ value := none, type := TokenType.String },
           { value := none, type := TokenType.EOF }] ∧
    tokenize [dquoteChar, dquoteChar] =
      .ok [{ value := none, type := TokenType.String },
           { value := none, type := TokenType.EOF }] ∧
    generateToken (some "") TokenType.String =
      { value := none, type := TokenType.String } :=
  ⟨by rfl, by rfl, by rfl⟩

/-- Claim C10: tokenize terminates on every finite input, because every
successful loop iteration consumes at least one character, so the supplied
fuel bound of one more than the input length is never exhausted and any
larger fuel computes the same result. -/
theorem claim_C10 :
    (∀ (c : Char) (rest : List Char) (t2 : Option Token) (rest2 : List Char),
        step (c :: rest) = .ok (t2, rest2) → rest2.length < (c :: rest).length) ∧
    (∀ (fuel : Nat) (input : List Char), input.length < fuel →
        tokenizeFuel fuel input = tokenize input) := by
  constructor
  · exact step_length_lt
  · intro fuel input h
    exact tokenizeFuel_congr fuel (input.length + 1) input h (Nat.lt_succ_self _)

/-- Witness for claim C10 at the concrete input 1 and fuel 5. -/
theorem claim_C10_witness :
    step ['1'] = .ok (some { value := some "1", type := TokenType.Number }, []) ∧
    ([] : List Char).length < (['1'] : List Char).length ∧
    tokenizeFuel 5 ['1'] = tokenize ['1'] := by
  refine ⟨by rfl, ?_, claim_C10.2 5 ['1'] (by decide)⟩
  exact claim_C10.1 '1' [] (some { value := some "1", type := TokenType.Number }) [] (by rfl)

/-- Claim C2, counterexample: the equals strategy does not count consecutive
equals signs; it filters the first three characters. On the input with an
equals sign, the letter a, and another equals sign, the strategy consumes
two characters without producing a token, silently dropping the letter, so
the claim that no characters are silently dropped fails. -/
theorem claim_C2_counterexample :
    step ['=', 'a', '='] = .ok (none, ['=']) ∧
    tokenize ['=', 'a', '='] =
      .ok [{ value := some "=", type := TokenType.Eq },
           { value := none, type := TokenType.EOF }] ∧
    ([{ value := some "=", type := TokenType.Eq },
      { value := none, type := TokenType.EOF }] : List Token) ≠
      [{ value := some "=", type := TokenType.Eq },
       { value := some "a", type := TokenType.Symbol },
       { value := some "=", type := TokenType.Eq },
       { value := none, type := TokenType.EOF }] :=
  ⟨by rfl, by rfl, by decide⟩

/-- Claim C2, amended: the equals strategy counts the equals signs among the
first three characters, not a consecutive run, and consumes that many
characters. When the counted characters are consecutive the count maps to
Eq, Deq or Teq exactly as the original claim says; when an equals sign
reappears at the third position after a different character, the strategy
consumes two characters including the intervening one and yields no token,
silently dropping input. -/
theorem claim_C2_amended :
    step ['='] = .ok (some { value := some "=", type := TokenType.Eq }, []) ∧
    (∀ (c : Char) (rest : List Char), c ≠ '=' → rest.head? ≠ some '=' →
        step ('=' :: c :: rest) =
          .ok (some { value := some "=", type := TokenType.Eq }, c :: rest)) ∧
    (∀ (c : Char) (rest : List Char), c ≠ '=' →
        step ('=' :: c :: '=' :: rest) = .ok (none, '=' :: rest)) ∧
    (∀ rest : List Char, rest.head? ≠ some '=' →
        step ('=' :: '=' :: rest) =
          .ok (some { value := some "==", type := TokenType.Deq }, rest)) ∧
    (∀ rest : List Char,
        step ('=' :: '=' :: '=' :: rest) =
          .ok (some { value := some "===", type := TokenType.Teq }, rest)) := by
  refine ⟨by rfl, ?_, ?_, ?_, ?_⟩
  · intro c rest hc hr
    rw [step_eq_dispatch]
    exact equalParse_lone c rest hc hr
  · intro c rest hc
    rw [step_eq_dispatch]
    exact equalParse_dropped c rest hc
  · intro rest hr
    rw [step_eq_dispatch]
    exact equalParse_double rest hr
  · intro rest
    rw [step_eq_dispatch]
    exact equalParse_triple rest

/-- Witness for claim C2 at concrete inputs. -/
theorem claim_C2_witness :
    ('a' : Char) ≠ '=' ∧ (([] : List Char).head? ≠ some '=') ∧
    step ['=', 'a'] = .ok (some { value := some "=", type := TokenType.Eq }, ['a']) ∧
    step ['=', 'a', '=', 'x'] = .ok (none, ['=', 'x']) :=
  ⟨by decide, by decide,
   claim_C2_amended.2.1 'a' [] (by decide) (by decide),
   claim_C2_amended.2.2.1 'a' ['x'] (by decide)⟩

/-- Claim C4, counterexample: a run of three minus characters is not a
lexing error; the strategy caps its count at two, so the run lexes as a
DMinus token followed by a Minus token and tokenize succeeds. -/
theorem claim_C4_counterexample :
    tokenize ['-', '-', '-'] =
      .ok [{ value := some "--", type := TokenType.DMinus },
           { value := some "-", type := TokenType.Minus },
           { value := none, type := TokenType.EOF }] := by rfl

/-- Claim C4, amended: the minus strategy counts the minus signs among the
first two characters, producing Minus for one and DMinus for two; a longer
run lexes as DMinus followed by further minus tokens, and the error branch
of the strategy is unreachable, so the strategy never fails. -/
theorem claim_C4_amended (rest : List Char) :
    step ('-' :: rest) =
      (if rest.head? = some '-' then
        .ok (some { value := some "--", type := TokenType.DMinus }, rest.tail)
      else
        .ok (some { value := some "-", type := TokenType.Minus }, rest)) := by
  match rest with
  | [] => rfl
  | d :: rest2 =>
    rw [step_minus_dispatch]
    by_cases hd : d = '-'
    · subst hd
      have hcond : ('-' :: rest2).head? = some '-' := rfl
      rw [if_pos hcond]
      exact minusParse_double rest2
    · rw [if_neg (by simp [hd])]
      exact minusParse_lone d rest2 hd

/-- Claim C5: an opening quote with no matching closing quote before the end
of the input makes tokenize fail with the diagnostic message built from the
captured text, never a successful token sequence; with a matching closing
quote every character in between is captured verbatim as the String token
literal with no escape handling. -/
theorem claim_C5 :
    (∀ (q : Char) (rest : List Char), (q = dquoteChar ∨ q = squoteChar) →
        q ∉ rest → tokenize (q :: rest) = .error (quoteErrMsg q rest)) ∧
    (∀ (q : Char) (mid rest : List Char), (q = dquoteChar ∨ q = squoteChar) →
        q ∉ mid →
        step (q :: (mid ++ q :: rest)) =
          .ok (some (generateToken (some (String.mk mid)) TokenType.String), rest)) ∧
    tokenize ['l', 'e', 't', ' ', 'x', ' ', '=', ' ', squoteChar, 'a', 'b', 'c', ';'] =
      .error (quoteErrMsg squoteChar ['a', 'b', 'c', ';']) := by
  refine ⟨?_, ?_, by rfl⟩
  · intro q rest hq hmem
    exact tokenize_cons_err q rest _ (step_quote_unterminated q rest hq hmem)
  · intro q mid rest hq hmem
    exact step_quote_terminated q mid rest hq hmem

/-- Witness for claim C5 at concrete inputs. -/
theorem claim_C5_witness :
    squoteChar ∉ (['a', 'b'] : List Char) ∧
    tokenize (squoteChar :: ['a', 'b']) = .error (quoteErrMsg squoteChar ['a', 'b']) ∧
    dquoteChar ∉ (['h', 'i'] : List Char) ∧
    step (dquoteChar :: (['h', 'i'] ++ dquoteChar :: [';'])) =
      .ok (some (generateToken (some (String.mk ['h', 'i'])) TokenType.String), [';']) :=
  ⟨by decide, claim_C5.1 squoteChar ['a', 'b'] (Or.inr rfl) (by decide),
   by decide, claim_C5.2.1 dquoteChar ['h', 'i'] [';'] (Or.inl rfl) (by decide)⟩

/-- Claim C8 (parser modelled from the spec): the pipeline applies operator
precedence and left-to-right associativity. The concrete source assigning
5 times 4 minus 3 over 9 parses to a LetStatement whose expression is a
minus BinaryExpression over the two tighter-binding products, and in
general three numbers chained with minus parse left-associatively, as do
products chained with multiplication then division. -/
theorem claim_C8 :
    lexParse "let x = 5*4 - 3/9;".data =
      .ok ⟨[Stmt.LetStatement "x"
        (.BinaryExpression
          (.BinaryExpression (.NumberExpression 5)
            { value := some "*", type := TokenType.Mult } (.NumberExpression 4))
          { value := some "-", type := TokenType.Minus }
          (.BinaryExpression (.NumberExpression 3)
            { value := some "/", type := TokenType.Div } (.NumberExpression 9)))]⟩ ∧
    (∀ s1 s2 s3 : String,
        parseExpression 6
          [{ value := some s1, type := TokenType.Number },
           { value := some "-", type := TokenType.Minus },
           { value := some s2, type := TokenType.Number },
           { value := some "-", type := TokenType.Minus },
           { value := some s3, type := TokenType.Number }] =
        .ok (.BinaryExpression
              (.BinaryExpression
                (.NumberExpression (numLit { value := some s1, type := TokenType.Number }))
                { value := some "-", type := TokenType.Minus }
                (.NumberExpression (numLit { value := some s2, type := TokenType.Number })))
              { value := some "-", type := TokenType.Minus }
              (.NumberExpression (numLit { value := some s3, type := TokenType.Number })),
             [])) ∧
    (∀ s1 s2 s3 : String,
        parseExpression 6
          [{ value := some s1, type := TokenType.Number },
           { value := some "*", type := TokenType.Mult },
           { value := some s2, type := TokenType.Number },
           { value := some "/", type := TokenType.Div },
           { value := some s3, type := TokenType.Number }] =
        .ok (.BinaryExpression
              (.BinaryExpression
                (.NumberExpression (numLit { value := some s1, type := TokenType.Number }))
                { value := some "*", type := TokenType.Mult }
                (.NumberExpression (numLit { value := some s2, type := TokenType.Number })))
              { value := some "/", type := TokenType.Div }
              (.NumberExpression (numLit { value := some s3, type := TokenType.Number })),
             [])) := by
  refine ⟨by rfl, ?_, ?_⟩ <;> (intro s1 s2 s3; rfl)

end Tuffie
